import Mathlib

/-!
Verification of the FSDP parameter-sharding layer of this repository.

The sharding core itself (`olmo_core.distributed.fsdp.FSDP`,
`olmo_core.distributed.sharded_flat_parameter.ShardedFlatParameter`) is not
among the provided source files; only its test
(`src/test/distributed/fsdp/fsdp_test.py`) is.  The definitions below are
therefore modelled from the specification's description of that layer, with
the behaviour pinned down by the assertions of the test file wherever the
two speak to the same point.  Tensors are modelled as flat lists of exact
rationals; floating-point tolerance in the spec becomes exact equality here.
-/

/-- A tensor, modelled as the flattened list of its (exact rational) entries.
Logical multi-dimensional shape is tracked through the element count only. -/
abbrev Tensor := List ℚ

/-- Modelled from the spec: the per-worker shard length
`ceil(total_elements / world_size)` of §3 ("local storage length =
ceil(total_elements / world_size) (padded)"). -/
def shardLen (total world : ℕ) : ℕ := (total + world - 1) / world

/-- The boundary data assigned to one rank: start offset of its chunk in the
flattened full tensor, number of real data elements, and number of zero pad
elements. -/
structure ChunkSpec where
  start : ℕ
  len : ℕ
  pad : ℕ
  deriving DecidableEq, Repr

/-- Modelled from the spec (§9 design note): the pure function
`(total_elements, world_size, rank) → (chunk_start, chunk_length, pad_length)`
that every worker computes locally, with no communication. -/
def chunkSpec (total world rank : ℕ) : ChunkSpec :=
  ChunkSpec.mk (rank * shardLen total world)
    (min (shardLen total world) (total - rank * shardLen total world))
    (shardLen total world -
      min (shardLen total world) (total - rank * shardLen total world))

/-- The padded chunk of a list assigned to a rank, for a given chunk
length `L`: the slice `[rank*L, rank*L + L)` of the list, padded with
zeros to length `L` where the list runs out. -/
def chunkPadded (L : ℕ) (full : Tensor) (rank : ℕ) : Tensor :=
  (full.drop (rank * L)).take L ++
    List.replicate (L - ((full.drop (rank * L)).take L).length) 0

/-- Modelled from the spec (§4.1 `sharded_chunk` / `shard`): the padded
worker-local chunk of a full-shape tensor assigned to `rank`, using the
chunk boundaries computed from `(full.length, world)`. -/
def shardedChunk (full : Tensor) (world rank : ℕ) : Tensor :=
  chunkPadded (shardLen full.length world) full rank

/-- Modelled from the spec (§4.1 `unshard` / gather): concatenate the chunks
gathered from every rank and drop the trailing zero padding, keeping the
first `total` elements. -/
def unshardAll (shards : List Tensor) (total : ℕ) : Tensor :=
  shards.flatten.take total

/-- All chunks of a full tensor, in rank order. -/
def allChunks (full : Tensor) (world : ℕ) : List Tensor :=
  (List.range world).map (shardedChunk full world)

/-- The padded slice of a full tensor described by a `ChunkSpec`. -/
def sliceBySpec (full : Tensor) (c : ChunkSpec) : Tensor :=
  (full.drop c.start).take c.len ++ List.replicate c.pad 0

/-- The two states of a managed parameter (§3). -/
inductive ShardState
  | SHARDED
  | FULL
  deriving DecidableEq

/-- Modelled from the spec (§3 "Sharded Parameter", §4.1; the class
`ShardedFlatParameter` of `olmo_core.distributed.sharded_flat_parameter`
is not among the provided sources): logical full element count, current
state, current local storage, and optional gradient buffer. -/
structure SFParam where
  fullNumel : ℕ
  state : ShardState
  data : Tensor
  grad : Option Tensor
  deriving DecidableEq

/-- `is_sharded` query of §4.1. -/
def SFParam.isSharded (p : SFParam) : Prop := p.state = ShardState.SHARDED

instance (p : SFParam) : Decidable p.isSharded := by
  unfold SFParam.isSharded; infer_instance

/-- Modelled from the spec (§7): the invalid-state error signalled by a
collective issued in an unexpected state. -/
inductive FSDPError
  | invalidState
  deriving DecidableEq

/-- Modelled from the spec (§4.1 `unshard`, §7): transition a parameter to
FULL state holding the gathered full tensor; signals an invalid-state error
when the parameter is already FULL. -/
def gatherParam (p : SFParam) (full : Tensor) : Except FSDPError SFParam :=
  match p.state with
  | ShardState.FULL => Except.error FSDPError.invalidState
  | ShardState.SHARDED =>
      Except.ok ⟨p.fullNumel, ShardState.FULL, full, p.grad⟩

/-- Run the gather, keeping the entered state when the call errors. -/
def runGather (p : SFParam) (full : Tensor) : SFParam :=
  match gatherParam p full with
  | Except.ok q => q
  | Except.error _ => p

/-- A parameter slot of a wrapped module: either an ordinary (plain)
parameter tensor, or a managed `SFParam`.  This mirrors the
`isinstance(param, ShardedFlatParameter)` checks of the test file. -/
inductive Param
  | plain (data : Tensor)
  | flat (p : SFParam)
  deriving DecidableEq

/-- Whether the slot holds a managed sharded parameter. -/
def Param.isFlat : Param → Prop
  | Param.plain _ => False
  | Param.flat _ => True

/-- Current state flag of the slot, when managed. -/
def Param.stateOf : Param → Option ShardState
  | Param.plain _ => none
  | Param.flat p => some p.state

/-- Gradient of the slot, when managed (`None` before any backward). -/
def Param.gradOf : Param → Option Tensor
  | Param.plain _ => none
  | Param.flat p => p.grad

/-- Current local storage of the slot. -/
def Param.dataOf : Param → Tensor
  | Param.plain t => t
  | Param.flat p => p.data

/-- Logical (unsharded) element count of the slot. -/
def Param.numelOf : Param → ℕ
  | Param.plain t => t.length
  | Param.flat p => p.fullNumel

/-- A managed slot whose state flag is SHARDED (ordinary slots are
unconstrained). -/
def Param.shardedOK : Param → Prop
  | Param.plain _ => True
  | Param.flat p => p.state = ShardState.SHARDED

/-- Modelled from the spec (§3 coordinator state): the debug/config toggle
disabling gradient reduction (`FSDPDebugConfig(no_reduce_grads=...)` in the
test). -/
structure FSDPConfig where
  noReduceGrads : Bool
  deriving DecidableEq

/-- The default configuration: gradients are all-reduced. -/
def defaultConfig : FSDPConfig := FSDPConfig.mk false

/-- Collective operations issued on the process group (§6). -/
inductive CollOp
  | allGather
  | allReduce
  deriving DecidableEq

/-- The wrapped computation, as the sharding core sees it (§1, §6): the
external tensor/autograd collaborator provides the scalar loss
`fwd params input` (the `model(x).sum()` of the test) and its per-parameter
full-shape gradients `bwd params input`. -/
structure NNModule where
  fwd : List Tensor → Tensor → ℚ
  bwd : List Tensor → Tensor → List Tensor

/-- Modelled from the spec (§2, §3; the class `olmo_core.distributed.fsdp.FSDP`
is not among the provided sources): the global state of one FSDP-wrapped
module across all workers — world size, configuration, and each rank's
parameter slots (outer index is the rank). -/
structure FSDPModel where
  world : ℕ
  cfg : FSDPConfig
  workers : List (List Param)
  deriving DecidableEq

/-- Parameter slots held by one rank. -/
def workerParams (m : FSDPModel) (r : ℕ) : List Param := m.workers.getD r []

/-- The slot of rank `r` for parameter index `i`. -/
def paramAt (m : FSDPModel) (r i : ℕ) : Param :=
  (workerParams m r).getD i (Param.plain [])

/-- Number of managed parameters (taken from rank 0). -/
def numParams (m : FSDPModel) : ℕ := (workerParams m 0).length

/-- Logical full element count of parameter `i` (taken from rank 0). -/
def paramNumel (m : FSDPModel) (i : ℕ) : ℕ := (paramAt m 0 i).numelOf

/-- Modelled from the spec (§4.1 `unshard`): the all-gather reconstructing
parameter `i`'s full tensor from every rank's chunk, excluding padding. -/
def gatherFullParam (m : FSDPModel) (i : ℕ) : Tensor :=
  unshardAll ((List.range m.world).map (fun r => (paramAt m r i).dataOf))
    (paramNumel m i)

/-- All full parameter tensors reconstructed by gathering. -/
def fullParamsOf (m : FSDPModel) : List Tensor :=
  (List.range (numParams m)).map (gatherFullParam m)

/-- Executable check that every managed slot on every rank is SHARDED
(§3 coordinator invariant, checked before a collective is issued, §7). -/
def FSDPModel.allShardedCheck (m : FSDPModel) : Bool :=
  m.workers.all (fun ps => ps.all (fun p =>
    match p with
    | Param.plain _ => true
    | Param.flat q => decide (q.state = ShardState.SHARDED)))

/-- Modelled from the spec (§3 lifecycle, test construction `FSDP(...)` plus
`summon_full_params` + `load_state_dict`): the steady consistent state in
which every rank holds its chunk of each full parameter tensor, with no
gradients. -/
def wrap (fulls : List Tensor) (W : ℕ) (cfg : FSDPConfig) : FSDPModel :=
  FSDPModel.mk W cfg
    ((List.range W).map (fun r =>
      fulls.map (fun t =>
        Param.flat (SFParam.mk t.length ShardState.SHARDED
          (shardedChunk t W r) none))))

/-- Elementwise sum of two tensors. -/
def tadd (a b : Tensor) : Tensor := List.zipWith (fun x y => x + y) a b

/-- Scalar multiple of a tensor. -/
def tscale (c : ℚ) (t : Tensor) : Tensor := t.map (fun x => c * x)

/-- Sum of a list of tensors (the all-reduce SUM of §4.3). -/
def tsumList : List Tensor → Tensor
  | [] => []
  | g :: gs => gs.foldl tadd g

/-- Rank `r`'s locally computed full-shape gradients during backward. -/
def localGrads (mod : NNModule) (m : FSDPModel) (xs : List Tensor) (r : ℕ) :
    List Tensor :=
  mod.bwd (fullParamsOf m) (xs.getD r [])

/-- The all-reduced (summed over ranks) full gradient of parameter `i`. -/
def redGrad (mod : NNModule) (m : FSDPModel) (xs : List Tensor) (i : ℕ) :
    Tensor :=
  tsumList ((List.range m.world).map (fun r => (localGrads mod m xs r).getD i []))

/-- Rebuild the per-rank parameter table by applying a slot transformer
`f rank index slot`; world size, configuration and table dimensions are
kept. -/
def rebuild (m : FSDPModel) (f : ℕ → ℕ → Param → Param) : FSDPModel :=
  FSDPModel.mk m.world m.cfg
    ((List.range m.world).map (fun r =>
      (List.range (numParams m)).map (fun i => f r i (paramAt m r i))))

/-- Modelled from the spec (§4.3 state machine, forward half): check the
steady-state invariant, all-gather full parameters, compute every rank's
loss from the full parameters and its own input, free the full buffers
(parameters stay exactly as entered, i.e. sharded).  Signals an
invalid-state error when some managed parameter is already FULL (§7). -/
def forwardStep (mod : NNModule) (m : FSDPModel) (xs : List Tensor) :
    Except FSDPError (FSDPModel × List ℚ × List CollOp) :=
  if m.allShardedCheck then
    Except.ok (m,
      (List.range m.world).map (fun r => mod.fwd (fullParamsOf m) (xs.getD r [])),
      [CollOp.allGather])
  else Except.error FSDPError.invalidState

/-- The per-slot effect of backward on rank `r`, parameter `i`: the slot
stays sharded with its chunk data, and receives either its rank's unreduced
full-shape local gradient (debug flag) or its chunk of the all-reduced sum
(normal mode). -/
def bwdXform (mod : NNModule) (m : FSDPModel) (xs : List Tensor) :
    ℕ → ℕ → Param → Param := fun r i p =>
  match p with
  | Param.plain t => Param.plain t
  | Param.flat q =>
      Param.flat (SFParam.mk q.fullNumel ShardState.SHARDED q.data
        (some (if m.cfg.noReduceGrads
          then (localGrads mod m xs r).getD i []
          else shardedChunk (redGrad mod m xs i) m.world r)))

/-- Modelled from the spec (§4.3 state machine, backward half, pinned by the
test): gather full parameters, obtain every rank's local full-shape
gradients from the autograd engine, then either all-reduce (SUM) and slice
each rank's chunk, or — with the `no_reduce_grads` debug flag — keep each
rank's unreduced full-shape local gradient (test lines 64–79 compare that
gradient against the full reference gradient and later feed it to
`sharded_chunk`, so it has full shape).  Parameters end SHARDED with their
chunk data unchanged.  The returned trace lists the collectives issued. -/
def backwardStep (mod : NNModule) (m : FSDPModel) (xs : List Tensor) :
    Except FSDPError (FSDPModel × List CollOp) :=
  if m.allShardedCheck then
    Except.ok
      (rebuild m (bwdXform mod m xs),
        if m.cfg.noReduceGrads then [CollOp.allGather]
        else [CollOp.allGather, CollOp.allReduce])
  else Except.error FSDPError.invalidState

/-- Modelled from the spec (§4.4): entering the scoped full-parameter
context gathers every managed parameter into FULL state holding its
reconstructed full tensor. -/
def unshardAllParams (m : FSDPModel) : FSDPModel :=
  rebuild m (fun _ i p =>
    match p with
    | Param.plain t => Param.plain t
    | Param.flat q =>
        Param.flat (SFParam.mk q.fullNumel ShardState.FULL
          (gatherFullParam m i) q.grad))

/-- Modelled from the spec (§4.4): leaving the scope re-shards every managed
parameter — each rank keeps its chunk of the (possibly modified) full data
— and releases the full buffers, unconditionally. -/
def reshardAllParams (m : FSDPModel) : FSDPModel :=
  rebuild m (fun r _ p =>
    match p with
    | Param.plain t => Param.plain t
    | Param.flat q =>
        Param.flat (SFParam.mk q.fullNumel ShardState.SHARDED
          (if q.state = ShardState.FULL
           then shardedChunk q.data m.world r else q.data) q.grad))

/-- Modelled from the spec (§4.4 `summon_full_params`): run a body on the
fully-materialized model; whether the body completed normally
(`snd = none`) or raised (`snd = some e`), the resharding cleanup runs on
the state the body reached, and the body's outcome is propagated. -/
def summonRun {ε : Type} (m : FSDPModel)
    (body : FSDPModel → FSDPModel × Option ε) : FSDPModel × Option ε :=
  (reshardAllParams (body (unshardAllParams m)).1,
   (body (unshardAllParams m)).2)

/-- Modelled from the spec (§6, test `load_state_dict` inside the scope):
overwrite every managed parameter's materialized data with the
corresponding full tensor of the loaded state dict, on every rank. -/
def loadFull (fulls : List Tensor) (m : FSDPModel) : FSDPModel :=
  rebuild m (fun _ i p =>
    match p with
    | Param.plain t => Param.plain (fulls.getD i t)
    | Param.flat q =>
        Param.flat (SFParam.mk q.fullNumel q.state (fulls.getD i q.data)
          q.grad))

/-- The operations the test drives the wrapper through. -/
inductive Cmd
  | fwd (xs : List Tensor)
  | bwd (xs : List Tensor)
  | load (fulls : List Tensor)

/-- One step of the wrapper lifecycle; a step whose collective signals an
invalid-state error leaves the model as entered (§7: no partial side
effects). -/
def stepCmd (mod : NNModule) (m : FSDPModel) : Cmd → FSDPModel
  | Cmd.fwd xs =>
      match forwardStep mod m xs with
      | Except.ok res => res.1
      | Except.error _ => m
  | Cmd.bwd xs =>
      match backwardStep mod m xs with
      | Except.ok res => res.1
      | Except.error _ => m
  | Cmd.load fulls =>
      (summonRun m (fun n => (loadFull fulls n, (none : Option Unit)))).1

/-- Run a sequence of lifecycle operations. -/
def runCmds (mod : NNModule) (m : FSDPModel) (cs : List Cmd) : FSDPModel :=
  cs.foldl (stepCmd mod) m

/-- Every managed slot on every rank is SHARDED (§3 coordinator
invariant). -/
def StateOK (m : FSDPModel) : Prop := ∀ r i, (paramAt m r i).shardedOK

/-- Every slot on every rank is a managed sharded parameter. -/
def AllFlat (m : FSDPModel) : Prop := ∀ r i, (paramAt m r i).isFlat ∨
  (workerParams m r).length ≤ i

/-- No managed slot holds a gradient. -/
def GradsNone (m : FSDPModel) : Prop := ∀ r i, (paramAt m r i).gradOf = none

/-- The loss a DDP replica of the same module computes on one rank: DDP
replicates full parameters, so its forward is the plain module forward. -/
def ddpLoss (mod : NNModule) (fulls : List Tensor) (x : Tensor) : ℚ :=
  mod.fwd fulls x

/-- The gradient a DDP replica holds after backward: DDP *averages* the
per-rank local gradients (test line 140). -/
def ddpGrad (mod : NNModule) (m : FSDPModel) (xs : List Tensor) (i : ℕ) :
    Tensor :=
  tscale (1 / (m.world : ℚ)) (redGrad mod m xs i)

/-- Well-formed global state: one slot table per rank, all of equal width. -/
def WF (m : FSDPModel) : Prop :=
  m.workers.length = m.world ∧
    ∀ r, r < m.world → (workerParams m r).length = numParams m

/-- Whether a lifecycle operation is a backward pass. -/
def Cmd.isBwd : Cmd → Prop
  | Cmd.bwd _ => True
  | _ => False

/-- Dot product, the loss of the tiny concrete witness model. -/
def dotT (a b : Tensor) : ℚ := (List.zipWith (fun x y => x * y) a b).sum

/-- A tiny linear module: loss is the dot product of the single parameter
with the input, whose parameter gradient is the input itself. -/
def linMod : NNModule :=
  NNModule.mk (fun ps x => dotT (ps.getD 0 []) x) (fun _ x => [x])

/-- A two-worker run of the default-configured wrapper over the parameter
`[1,2,3]`, after one backward pass with input `[1,1,1]` on both ranks. -/
def cexModelC1 : FSDPModel :=
  stepCmd linMod (wrap [[(1 : ℚ), 2, 3]] 2 defaultConfig)
    (Cmd.bwd [[1, 1, 1], [1, 1, 1]])

/-- The same two-worker run with the `no_reduce_grads` debug flag set. -/
def cexModelC6 : FSDPModel :=
  stepCmd linMod (wrap [[(1 : ℚ), 2, 3]] 2 (FSDPConfig.mk true))
    (Cmd.bwd [[1, 1, 1], [1, 1, 1]])

lemma chunkPadded_zero (L : ℕ) (full : Tensor) :
    chunkPadded L full 0 =
      full.take L ++ List.replicate (L - (full.take L).length) 0 := by
  simp [chunkPadded]

lemma chunkPadded_succ (L : ℕ) (full : Tensor) (r : ℕ) :
    chunkPadded L full (r + 1) = chunkPadded L (full.drop L) r := by
  unfold chunkPadded
  rw [List.drop_drop]
  have h : (r + 1) * L = L + r * L := by ring
  rw [h]

lemma chunkPadded_length (L : ℕ) (full : Tensor) (r : ℕ) :
    (chunkPadded L full r).length = L := by
  unfold chunkPadded
  simp [List.length_take, List.length_drop]

/-- Concatenating the padded chunks of all ranks recovers the full list
followed by the zero padding. -/
lemma flatten_chunkPadded (L : ℕ) :
    ∀ (W : ℕ) (full : Tensor), full.length ≤ W * L →
      ((List.range W).map (chunkPadded L full)).flatten =
        full ++ List.replicate (W * L - full.length) (0 : ℚ) := by
  intro W
  induction W with
  | zero =>
    intro full h
    have hnil : full = [] := by
      cases full with
      | nil => rfl
      | cons a l => simp at h
    simp [hnil]
  | succ W ih =>
    intro full h
    rw [List.range_succ_eq_map, List.map_cons, List.flatten_cons, List.map_map]
    have hmap : (List.range W).map (chunkPadded L full ∘ Nat.succ)
        = (List.range W).map (chunkPadded L (full.drop L)) := by
      apply List.map_congr_left
      intro r _
      simpa using chunkPadded_succ L full r
    have hlen : (full.drop L).length ≤ W * L := by
      simp only [List.length_drop]
      have : (W + 1) * L = W * L + L := by ring
      omega
    rw [hmap, ih (full.drop L) hlen]
    rw [chunkPadded_zero]
    by_cases hl : L ≤ full.length
    · have ht : (full.take L).length = L := by
        simp [List.length_take]; omega
      rw [ht]
      simp only [Nat.sub_self, List.replicate_zero, List.append_nil]
      rw [← List.append_assoc, List.take_append_drop]
      have hc : W * L - (full.drop L).length = (W + 1) * L - full.length := by
        simp only [List.length_drop]
        have : (W + 1) * L = W * L + L := by ring
        omega
      rw [hc]
    · push_neg at hl
      have ht : full.take L = full := List.take_of_length_le (le_of_lt hl)
      have hd : full.drop L = [] := List.drop_eq_nil_of_le (le_of_lt hl)
      rw [ht, hd]
      simp only [List.length_nil, List.length_drop, Nat.sub_zero,
        List.nil_append, List.append_assoc]
      rw [← List.replicate_add]
      congr 2
      have : (W + 1) * L = W * L + L := by ring
      omega

/-- The total element count never exceeds `world * shardLen`. -/
lemma le_world_mul_shardLen (total W : ℕ) (hW : 0 < W) :
    total ≤ W * shardLen total W := by
  rcases Nat.eq_zero_or_pos total with h0 | h0
  · simp [h0]
  · have h := Nat.div_add_mod (total + W - 1) W
    have h2 : (total + W - 1) % W < W := Nat.mod_lt _ hW
    unfold shardLen
    have h1 : (1 : ℕ) ≤ total + W := by omega
    zify [h1] at h h2 ⊢
    linarith

/-- Round-trip core: gathering every rank's padded chunk and dropping the
padding recovers the original full tensor exactly. -/
theorem unshardAll_allChunks (full : Tensor) (W : ℕ) (hW : 0 < W) :
    unshardAll (allChunks full W) full.length = full := by
  unfold unshardAll allChunks shardedChunk
  rw [flatten_chunkPadded (shardLen full.length W) W full
    (le_world_mul_shardLen full.length W hW)]
  rw [List.take_left]

/-- The operational chunk of §4.1 follows exactly the pure boundary function
`chunkSpec` of the design note (§9). -/
lemma shardedChunk_eq_sliceBySpec (full : Tensor) (W r : ℕ) :
    shardedChunk full W r = sliceBySpec full (chunkSpec full.length W r) := by
  unfold shardedChunk chunkPadded sliceBySpec chunkSpec
  congr 1
  · rw [List.take_eq_take]
    simp only [List.length_take, List.length_drop]
    omega
  · congr 1
    simp only [List.length_take, List.length_drop]

lemma getD_map_range {α : Type} (n i : ℕ) (f : ℕ → α) (d : α) (hi : i < n) :
    ((List.range n).map f).getD i d = f i := by
  simp [List.getD_eq_getElem?_getD, List.getElem?_map, List.getElem?_range hi]

lemma getD_map_of_lt {α β : Type} (l : List α) (f : α → β) (i : ℕ)
    (d : β) (e : α) (hi : i < l.length) :
    (l.map f).getD i d = f (l.getD i e) := by
  simp [List.getD_eq_getElem?_getD, List.getElem?_map,
    List.getElem?_eq_getElem hi]

lemma map_getD_range {α : Type} (l : List α) (d : α) :
    (List.range l.length).map (fun i => l.getD i d) = l := by
  apply List.ext_getElem (by simp)
  intro i h1 h2
  simp [List.getD_eq_getElem?_getD, List.getElem?_eq_getElem h2]

lemma workerParams_wrap (fulls : List Tensor) (W : ℕ) (cfg : FSDPConfig)
    (r : ℕ) (hr : r < W) :
    workerParams (wrap fulls W cfg) r =
      fulls.map (fun t =>
        Param.flat (SFParam.mk t.length ShardState.SHARDED
          (shardedChunk t W r) none)) := by
  unfold workerParams wrap
  exact getD_map_range W r _ [] hr

lemma paramAt_wrap (fulls : List Tensor) (W : ℕ) (cfg : FSDPConfig)
    (r i : ℕ) (hr : r < W) (hi : i < fulls.length) :
    paramAt (wrap fulls W cfg) r i =
      Param.flat (SFParam.mk (fulls.getD i []).length ShardState.SHARDED
        (shardedChunk (fulls.getD i []) W r) none) := by
  unfold paramAt
  rw [workerParams_wrap fulls W cfg r hr]
  exact getD_map_of_lt fulls _ i _ [] hi

lemma numParams_wrap (fulls : List Tensor) (W : ℕ) (cfg : FSDPConfig)
    (hW : 0 < W) :
    numParams (wrap fulls W cfg) = fulls.length := by
  unfold numParams
  rw [workerParams_wrap fulls W cfg 0 hW]
  simp

lemma paramNumel_wrap (fulls : List Tensor) (W : ℕ) (cfg : FSDPConfig)
    (i : ℕ) (hW : 0 < W) (hi : i < fulls.length) :
    paramNumel (wrap fulls W cfg) i = (fulls.getD i []).length := by
  unfold paramNumel
  rw [paramAt_wrap fulls W cfg 0 i hW hi]
  rfl

lemma gatherFullParam_wrap (fulls : List Tensor) (W : ℕ) (cfg : FSDPConfig)
    (i : ℕ) (hW : 0 < W) (hi : i < fulls.length) :
    gatherFullParam (wrap fulls W cfg) i = fulls.getD i [] := by
  unfold gatherFullParam
  rw [paramNumel_wrap fulls W cfg i hW hi]
  have hw : (wrap fulls W cfg).world = W := rfl
  rw [hw]
  have hmap : (List.range W).map
        (fun r => (paramAt (wrap fulls W cfg) r i).dataOf)
      = (List.range W).map (shardedChunk (fulls.getD i []) W) := by
    apply List.map_congr_left
    intro r hrmem
    rw [paramAt_wrap fulls W cfg r i (List.mem_range.mp hrmem) hi]
    rfl
  rw [hmap]
  exact unshardAll_allChunks (fulls.getD i []) W hW

lemma fullParamsOf_wrap (fulls : List Tensor) (W : ℕ) (cfg : FSDPConfig)
    (hW : 0 < W) :
    fullParamsOf (wrap fulls W cfg) = fulls := by
  unfold fullParamsOf
  rw [numParams_wrap fulls W cfg hW]
  have hmap : (List.range fulls.length).map (gatherFullParam (wrap fulls W cfg))
      = (List.range fulls.length).map (fun i => fulls.getD i []) := by
    apply List.map_congr_left
    intro i himem
    exact gatherFullParam_wrap fulls W cfg i hW (List.mem_range.mp himem)
  rw [hmap]
  exact map_getD_range fulls []

lemma allShardedCheck_wrap (fulls : List Tensor) (W : ℕ) (cfg : FSDPConfig) :
    (wrap fulls W cfg).allShardedCheck = true := by
  unfold FSDPModel.allShardedCheck wrap
  simp [List.all_eq_true]

lemma paramAt_oob (m : FSDPModel) (r i : ℕ)
    (h : (workerParams m r).length ≤ i) : paramAt m r i = Param.plain [] :=
  List.getD_eq_default _ _ h

lemma workerParams_oob (m : FSDPModel) (r : ℕ) (h : m.workers.length ≤ r) :
    workerParams m r = [] :=
  List.getD_eq_default _ _ h

lemma workerParams_rebuild (m : FSDPModel) (f : ℕ → ℕ → Param → Param)
    (r : ℕ) (hr : r < m.world) :
    workerParams (rebuild m f) r =
      (List.range (numParams m)).map (fun i => f r i (paramAt m r i)) := by
  unfold workerParams rebuild
  exact getD_map_range m.world r _ [] hr

lemma paramAt_rebuild (m : FSDPModel) (f : ℕ → ℕ → Param → Param)
    (r i : ℕ) (hr : r < m.world) (hi : i < numParams m) :
    paramAt (rebuild m f) r i = f r i (paramAt m r i) := by
  unfold paramAt
  rw [workerParams_rebuild m f r hr]
  exact getD_map_range (numParams m) i _ _ hi

lemma world_rebuild (m : FSDPModel) (f : ℕ → ℕ → Param → Param) :
    (rebuild m f).world = m.world := rfl

lemma cfg_rebuild (m : FSDPModel) (f : ℕ → ℕ → Param → Param) :
    (rebuild m f).cfg = m.cfg := rfl

lemma numParams_rebuild (m : FSDPModel) (f : ℕ → ℕ → Param → Param)
    (hW : 0 < m.world) : numParams (rebuild m f) = numParams m := by
  unfold numParams
  rw [workerParams_rebuild m f 0 hW]
  simp
  rfl

lemma WF_rebuild (m : FSDPModel) (f : ℕ → ℕ → Param → Param) :
    WF (rebuild m f) := by
  constructor
  · simp [rebuild]
  · intro r hr
    rcases Nat.eq_zero_or_pos m.world with h0 | h0
    · simp [rebuild, h0] at hr
    · rw [world_rebuild] at hr
      rw [workerParams_rebuild m f r hr, numParams_rebuild m f h0]
      simp

lemma WF_wrap (fulls : List Tensor) (W : ℕ) (cfg : FSDPConfig) :
    WF (wrap fulls W cfg) := by
  constructor
  · simp [wrap]
  · intro r hr
    rcases Nat.eq_zero_or_pos W with h0 | h0
    · subst h0; simp [wrap] at hr
    · rw [workerParams_wrap fulls W cfg r hr, numParams_wrap fulls W cfg h0]
      simp

/-- A rebuild whose transformer only emits sharded-or-plain slots yields a
state satisfying the §3 coordinator invariant, unconditionally. -/
lemma stateOK_rebuild (m : FSDPModel) (f : ℕ → ℕ → Param → Param)
    (hf : ∀ r i p, (f r i p).shardedOK) : StateOK (rebuild m f) := by
  intro r i
  by_cases hr : r < m.world
  · by_cases hi : i < numParams m
    · rw [paramAt_rebuild m f r i hr hi]
      exact hf r i _
    · push_neg at hi
      rw [paramAt_oob]
      · trivial
      · rw [workerParams_rebuild m f r hr]
        simpa using hi
  · push_neg at hr
    rw [paramAt_oob]
    · trivial
    · rw [workerParams_oob]
      · simp
      · simpa [rebuild] using hr

lemma stateOK_wrap (fulls : List Tensor) (W : ℕ) (cfg : FSDPConfig) :
    StateOK (wrap fulls W cfg) := by
  intro r i
  by_cases hr : r < W
  · by_cases hi : i < fulls.length
    · rw [paramAt_wrap fulls W cfg r i hr hi]
      rfl
    · push_neg at hi
      rw [paramAt_oob]
      · trivial
      · rw [workerParams_wrap fulls W cfg r hr]
        simpa using hi
  · push_neg at hr
    rw [paramAt_oob]
    · trivial
    · rw [workerParams_oob]
      · simp
      · simpa [wrap] using hr

lemma allFlat_rebuild (m : FSDPModel) (f : ℕ → ℕ → Param → Param)
    (hwf : WF m) (hm : AllFlat m)
    (hf : ∀ r i p, p.isFlat → (f r i p).isFlat) : AllFlat (rebuild m f) := by
  intro r i
  by_cases hr : r < m.world
  · by_cases hi : i < numParams m
    · left
      rw [paramAt_rebuild m f r i hr hi]
      apply hf
      rcases hm r i with hflat | hlen
      · exact hflat
      · rw [hwf.2 r hr] at hlen
        omega
    · right
      rw [workerParams_rebuild m f r hr]
      simpa using Nat.le_of_not_lt hi
  · right
    rw [workerParams_oob]
    · simp
    · simpa [rebuild] using Nat.le_of_not_lt hr

lemma allFlat_wrap (fulls : List Tensor) (W : ℕ) (cfg : FSDPConfig) :
    AllFlat (wrap fulls W cfg) := by
  intro r i
  by_cases hr : r < W
  · by_cases hi : i < fulls.length
    · left
      rw [paramAt_wrap fulls W cfg r i hr hi]
      trivial
    · right
      rw [workerParams_wrap fulls W cfg r hr]
      simpa using Nat.le_of_not_lt hi
  · right
    rw [workerParams_oob]
    · simp
    · simpa [wrap] using Nat.le_of_not_lt hr

lemma gradsNone_rebuild (m : FSDPModel) (f : ℕ → ℕ → Param → Param)
    (hm : GradsNone m)
    (hf : ∀ r i p, (f r i p).gradOf = p.gradOf) : GradsNone (rebuild m f) := by
  intro r i
  by_cases hr : r < m.world
  · by_cases hi : i < numParams m
    · rw [paramAt_rebuild m f r i hr hi, hf]
      exact hm r i
    · rw [paramAt_oob]
      · rfl
      · rw [workerParams_rebuild m f r hr]
        simpa using Nat.le_of_not_lt hi
  · rw [paramAt_oob]
    · rfl
    · rw [workerParams_oob]
      · simp
      · simpa [rebuild] using Nat.le_of_not_lt hr

lemma gradsNone_wrap (fulls : List Tensor) (W : ℕ) (cfg : FSDPConfig) :
    GradsNone (wrap fulls W cfg) := by
  intro r i
  by_cases hr : r < W
  · by_cases hi : i < fulls.length
    · rw [paramAt_wrap fulls W cfg r i hr hi]
      rfl
    · rw [paramAt_oob]
      · rfl
      · rw [workerParams_wrap fulls W cfg r hr]
        simpa using Nat.le_of_not_lt hi
  · rw [paramAt_oob]
    · rfl
    · rw [workerParams_oob]
      · simp
      · simpa [wrap] using Nat.le_of_not_lt hr

lemma stateOK_backward_f (mod : NNModule) (m : FSDPModel) (xs : List Tensor) :
    ∀ r i p, (bwdXform mod m xs r i p).shardedOK := by
  intro r i p
  cases p with
  | plain t => trivial
  | flat q => rfl

lemma stateOK_reshard (m : FSDPModel) : StateOK (reshardAllParams m) := by
  apply stateOK_rebuild
  intro r i p
  cases p with
  | plain t => trivial
  | flat q => rfl

lemma stateOK_stepCmd (mod : NNModule) (m : FSDPModel) (c : Cmd)
    (h : StateOK m) : StateOK (stepCmd mod m c) := by
  cases c with
  | fwd xs =>
    unfold stepCmd forwardStep
    by_cases hc : m.allShardedCheck
    · simp only [hc, if_true]
      exact h
    · simp only [hc, Bool.false_eq_true, if_false]
      exact h
  | bwd xs =>
    unfold stepCmd backwardStep
    by_cases hc : m.allShardedCheck
    · simp only [hc, if_true]
      exact stateOK_rebuild m _ (stateOK_backward_f mod m xs)
    · simp only [hc, Bool.false_eq_true, if_false]
      exact h
  | load fulls =>
    unfold stepCmd summonRun
    exact stateOK_reshard _

lemma stateOK_runCmds (mod : NNModule) (m : FSDPModel) (cs : List Cmd)
    (h : StateOK m) : StateOK (runCmds mod m cs) := by
  induction cs generalizing m with
  | nil => exact h
  | cons c cs ih => exact ih (stepCmd mod m c) (stateOK_stepCmd mod m c h)

lemma wf_stepCmd (mod : NNModule) (m : FSDPModel) (c : Cmd)
    (h : WF m) : WF (stepCmd mod m c) := by
  cases c with
  | fwd xs =>
    unfold stepCmd forwardStep
    by_cases hc : m.allShardedCheck
    · simp only [hc, if_true]
      exact h
    · simp only [hc, Bool.false_eq_true, if_false]
      exact h
  | bwd xs =>
    unfold stepCmd backwardStep
    by_cases hc : m.allShardedCheck
    · simp only [hc, if_true]
      exact WF_rebuild m _
    · simp only [hc, Bool.false_eq_true, if_false]
      exact h
  | load fulls =>
    unfold stepCmd summonRun
    exact WF_rebuild _ _

lemma allFlat_stepCmd (mod : NNModule) (m : FSDPModel) (c : Cmd)
    (hwf : WF m) (h : AllFlat m) : AllFlat (stepCmd mod m c) := by
  cases c with
  | fwd xs =>
    unfold stepCmd forwardStep
    by_cases hc : m.allShardedCheck
    · simp only [hc, if_true]
      exact h
    · simp only [hc, Bool.false_eq_true, if_false]
      exact h
  | bwd xs =>
    unfold stepCmd backwardStep
    by_cases hc : m.allShardedCheck
    · simp only [hc, if_true]
      apply allFlat_rebuild m _ hwf h
      intro r i p hp
      cases p with
      | plain t => exact hp
      | flat q => trivial
    · simp only [hc, Bool.false_eq_true, if_false]
      exact h
  | load fulls =>
    show AllFlat (reshardAllParams (loadFull fulls (unshardAllParams m)))
    unfold reshardAllParams loadFull unshardAllParams
    apply allFlat_rebuild _ _ (WF_rebuild _ _)
    · apply allFlat_rebuild _ _ (WF_rebuild _ _)
      · apply allFlat_rebuild m _ hwf h
        intro r i p hp
        cases p with
        | plain t => exact hp
        | flat q => trivial
      · intro r i p hp
        cases p with
        | plain t => exact hp
        | flat q => trivial
    · intro r i p hp
      cases p with
      | plain t => exact hp
      | flat q => trivial

lemma allFlat_runCmds (mod : NNModule) (m : FSDPModel) (cs : List Cmd)
    (hwf : WF m) (h : AllFlat m) : AllFlat (runCmds mod m cs) := by
  induction cs generalizing m with
  | nil => exact h
  | cons c cs ih =>
    exact ih (stepCmd mod m c) (wf_stepCmd mod m c hwf)
      (allFlat_stepCmd mod m c hwf h)

lemma gradsNone_stepCmd (mod : NNModule) (m : FSDPModel) (c : Cmd)
    (h : GradsNone m) (hc : ¬ c.isBwd) : GradsNone (stepCmd mod m c) := by
  cases c with
  | fwd xs =>
    unfold stepCmd forwardStep
    by_cases hchk : m.allShardedCheck
    · simp only [hchk, if_true]
      exact h
    · simp only [hchk, Bool.false_eq_true, if_false]
      exact h
  | bwd xs => exact absurd trivial hc
  | load fulls =>
    show GradsNone (reshardAllParams (loadFull fulls (unshardAllParams m)))
    unfold reshardAllParams loadFull unshardAllParams
    apply gradsNone_rebuild
    · apply gradsNone_rebuild
      · apply gradsNone_rebuild m _ h
        intro r i p
        cases p with
        | plain t => rfl
        | flat q => rfl
      · intro r i p
        cases p with
        | plain t => rfl
        | flat q => rfl
    · intro r i p
      cases p with
      | plain t => rfl
      | flat q => rfl

lemma gradsNone_runCmds (mod : NNModule) (m : FSDPModel) (cs : List Cmd)
    (h : GradsNone m) (hc : ∀ c ∈ cs, ¬ c.isBwd) :
    GradsNone (runCmds mod m cs) := by
  induction cs generalizing m with
  | nil => exact h
  | cons c cs ih =>
    exact ih (stepCmd mod m c)
      (gradsNone_stepCmd mod m c h (hc c (List.mem_cons_self c cs)))
      (fun d hd => hc d (List.mem_cons_of_mem c hd))

lemma tadd_tscale (k : ℚ) (g : Tensor) :
    tadd (tscale k g) g = tscale (k + 1) g := by
  unfold tadd tscale
  induction g with
  | nil => rfl
  | cons a l ih =>
    simp only [List.map_cons, List.zipWith_cons_cons]
    rw [ih]
    congr 1
    ring

lemma tscale_one (g : Tensor) : tscale 1 g = g := by
  simp [tscale]

lemma tscale_tscale (a b : ℚ) (g : Tensor) :
    tscale a (tscale b g) = tscale (a * b) g := by
  simp [tscale, List.map_map, Function.comp, mul_assoc]

lemma foldl_tadd_replicate (g : Tensor) (k : ℚ) :
    ∀ n : ℕ, List.foldl tadd (tscale k g) (List.replicate n g)
      = tscale (k + n) g := by
  intro n
  induction n generalizing k with
  | zero => simp
  | succ n ih =>
    rw [List.replicate_succ, List.foldl_cons, tadd_tscale k g, ih (k + 1)]
    congr 1
    push_cast
    ring

/-- The all-reduce SUM of `n` identical contributions is the `n`-fold
scalar multiple. -/
lemma tsumList_replicate (g : Tensor) (n : ℕ) (hn : 0 < n) :
    tsumList (List.replicate n g) = tscale (n : ℚ) g := by
  obtain ⟨m, rfl⟩ := Nat.exists_eq_add_of_lt hn
  rw [Nat.zero_add, List.replicate_succ]
  show List.foldl tadd g (List.replicate m g) = _
  have h1 := foldl_tadd_replicate g 1 m
  rw [tscale_one] at h1
  rw [h1]
  congr 1
  push_cast
  ring

lemma length_tadd (a b : Tensor) :
    (tadd a b).length = min a.length b.length := by
  simp [tadd]

lemma length_foldl_tadd (gs : List Tensor) (acc : Tensor)
    (h : ∀ g ∈ gs, g.length = acc.length) :
    (List.foldl tadd acc gs).length = acc.length := by
  induction gs generalizing acc with
  | nil => rfl
  | cons g gs ih =>
    rw [List.foldl_cons]
    have hg : g.length = acc.length := h g (List.mem_cons_self g gs)
    have hacc : (tadd acc g).length = acc.length := by
      rw [length_tadd]
      omega
    rw [ih (tadd acc g)]
    · exact hacc
    · intro g' hg'
      rw [hacc]
      exact h g' (List.mem_cons_of_mem g hg')

lemma length_tsumList (gs : List Tensor) (n : ℕ) (hne : gs ≠ [])
    (hall : ∀ g ∈ gs, g.length = n) : (tsumList gs).length = n := by
  cases gs with
  | nil => exact absurd rfl hne
  | cons g gs =>
    show (List.foldl tadd g gs).length = n
    have hg : g.length = n := hall g (List.mem_cons_self g gs)
    rw [length_foldl_tadd gs g]
    · exact hg
    · intro g' hg'
      rw [hg]
      exact hall g' (List.mem_cons_of_mem g hg')

lemma forwardStep_wrap (mod : NNModule) (fulls : List Tensor) (W : ℕ)
    (cfg : FSDPConfig) (xs : List Tensor) (hW : 0 < W) :
    forwardStep mod (wrap fulls W cfg) xs =
      Except.ok (wrap fulls W cfg,
        (List.range W).map (fun r => mod.fwd fulls (xs.getD r [])),
        [CollOp.allGather]) := by
  unfold forwardStep
  rw [allShardedCheck_wrap, fullParamsOf_wrap fulls W cfg hW]
  rfl

lemma localGrads_wrap (mod : NNModule) (fulls : List Tensor) (W : ℕ)
    (cfg : FSDPConfig) (xs : List Tensor) (r : ℕ) (hW : 0 < W) :
    localGrads mod (wrap fulls W cfg) xs r = mod.bwd fulls (xs.getD r []) := by
  unfold localGrads
  rw [fullParamsOf_wrap fulls W cfg hW]

lemma redGrad_wrap (mod : NNModule) (fulls : List Tensor) (W : ℕ)
    (cfg : FSDPConfig) (xs : List Tensor) (i : ℕ) (hW : 0 < W) :
    redGrad mod (wrap fulls W cfg) xs i =
      tsumList ((List.range W).map
        (fun r => (mod.bwd fulls (xs.getD r [])).getD i [])) := by
  unfold redGrad
  have hw : (wrap fulls W cfg).world = W := rfl
  rw [hw]
  congr 1
  apply List.map_congr_left
  intro r _
  rw [localGrads_wrap mod fulls W cfg xs r hW]

lemma backwardStep_wrap (mod : NNModule) (fulls : List Tensor) (W : ℕ)
    (cfg : FSDPConfig) (xs : List Tensor) :
    backwardStep mod (wrap fulls W cfg) xs =
      Except.ok
        (rebuild (wrap fulls W cfg) (bwdXform mod (wrap fulls W cfg) xs),
          if cfg.noReduceGrads then [CollOp.allGather]
          else [CollOp.allGather, CollOp.allReduce]) := by
  unfold backwardStep
  rw [allShardedCheck_wrap]
  rfl

lemma paramAt_bwd_wrap (mod : NNModule) (fulls : List Tensor) (W : ℕ)
    (cfg : FSDPConfig) (xs : List Tensor) (r i : ℕ)
    (hW : 0 < W) (hr : r < W) (hi : i < fulls.length) :
    paramAt (rebuild (wrap fulls W cfg) (bwdXform mod (wrap fulls W cfg) xs))
        r i =
      Param.flat (SFParam.mk (fulls.getD i []).length ShardState.SHARDED
        (shardedChunk (fulls.getD i []) W r)
        (some (if cfg.noReduceGrads
          then (mod.bwd fulls (xs.getD r [])).getD i []
          else shardedChunk (redGrad mod (wrap fulls W cfg) xs i) W r))) := by
  rw [paramAt_rebuild (wrap fulls W cfg) _ r i hr
    (by rw [numParams_wrap fulls W cfg hW]; exact hi)]
  rw [paramAt_wrap fulls W cfg r i hr hi]
  unfold bwdXform
  rw [localGrads_wrap mod fulls W cfg xs r hW]
  rfl

/-- Scaling the DDP-averaged gradient back by the world size recovers the
all-reduced SUM gradient. -/
lemma tscale_world_ddpGrad (mod : NNModule) (m : FSDPModel) (xs : List Tensor)
    (i : ℕ) (hW : 0 < m.world) :
    tscale (m.world : ℚ) (ddpGrad mod m xs i) = redGrad mod m xs i := by
  unfold ddpGrad
  rw [tscale_tscale]
  have hne : (m.world : ℚ) ≠ 0 := by
    simp
    omega
  have h1 : (m.world : ℚ) * (1 / (m.world : ℚ)) = 1 := by
    field_simp
  rw [h1, tscale_one]

/-- When every rank computes the same local gradients (identical per-rank
inputs), the all-reduced SUM is the world-size multiple of the common
value. -/
lemma redGrad_wrap_const (mod : NNModule) (fulls : List Tensor) (W : ℕ)
    (cfg : FSDPConfig) (xs : List Tensor) (gs : List Tensor) (i : ℕ)
    (hW : 0 < W) (h : ∀ r, r < W → mod.bwd fulls (xs.getD r []) = gs) :
    redGrad mod (wrap fulls W cfg) xs i = tscale (W : ℚ) (gs.getD i []) := by
  rw [redGrad_wrap mod fulls W cfg xs i hW]
  have hmap : (List.range W).map
        (fun r => (mod.bwd fulls (xs.getD r [])).getD i [])
      = List.replicate W (gs.getD i []) := by
    have h1 : (List.range W).map
          (fun r => (mod.bwd fulls (xs.getD r [])).getD i [])
        = (List.range W).map (fun _ => gs.getD i []) := by
      apply List.map_congr_left
      intro r hrmem
      rw [h r (List.mem_range.mp hrmem)]
    rw [h1, List.map_const']
    simp
  rw [hmap, tsumList_replicate _ W hW]

lemma paramAt_unshard_wrap (fulls : List Tensor) (W : ℕ) (cfg : FSDPConfig)
    (r i : ℕ) (hW : 0 < W) (hr : r < W) (hi : i < fulls.length) :
    paramAt (unshardAllParams (wrap fulls W cfg)) r i =
      Param.flat (SFParam.mk (fulls.getD i []).length ShardState.FULL
        (fulls.getD i []) none) := by
  unfold unshardAllParams
  rw [paramAt_rebuild (wrap fulls W cfg) _ r i hr
    (by rw [numParams_wrap fulls W cfg hW]; exact hi)]
  rw [paramAt_wrap fulls W cfg r i hr hi]
  rw [gatherFullParam_wrap fulls W cfg i hW hi]

lemma summon_body_outcome {ε : Type} (m : FSDPModel)
    (body : FSDPModel → FSDPModel × Option ε) :
    (summonRun m body).2 = (body (unshardAllParams m)).2 := rfl

lemma paramAt_summon_load_wrap (inits fulls : List Tensor) (W : ℕ)
    (cfg : FSDPConfig) (r i : ℕ) (hW : 0 < W) (hr : r < W)
    (hi : i < inits.length) (hif : i < fulls.length) :
    paramAt ((summonRun (wrap inits W cfg)
        (fun n => (loadFull fulls n, (none : Option Unit)))).1) r i =
      Param.flat (SFParam.mk (inits.getD i []).length ShardState.SHARDED
        (shardedChunk (fulls.getD i []) W r) none) := by
  show paramAt
    (reshardAllParams (loadFull fulls (unshardAllParams (wrap inits W cfg))))
    r i = _
  have hw1 : (unshardAllParams (wrap inits W cfg)).world = W := rfl
  have hn1 : numParams (unshardAllParams (wrap inits W cfg)) = inits.length := by
    unfold unshardAllParams
    rw [numParams_rebuild _ _ hW, numParams_wrap inits W cfg hW]
  have hw2 : (loadFull fulls (unshardAllParams (wrap inits W cfg))).world
      = W := rfl
  have hn2 : numParams (loadFull fulls (unshardAllParams (wrap inits W cfg)))
      = inits.length := by
    unfold loadFull
    rw [numParams_rebuild _ _ (by rw [hw1]; exact hW), hn1]
  unfold reshardAllParams
  rw [paramAt_rebuild _ _ r i (by rw [hw2]; exact hr) (by rw [hn2]; exact hi)]
  unfold loadFull
  rw [paramAt_rebuild _ _ r i (by rw [hw1]; exact hr) (by rw [hn1]; exact hi)]
  rw [paramAt_unshard_wrap inits W cfg r i hW hr hi]
  simp [world_rebuild, hw1, List.getD_eq_getElem?_getD,
    List.getElem?_eq_getElem hif, List.getElem?_eq_getElem hi]

/-- Claim C1, counterexample: with world size 2, identical per-rank inputs
and the default (SUM-reducing) configuration, rank 0's sharded gradient is
`sharded_chunk` of the *doubled* reference gradient, not of the reference
gradient itself — the first clause of the claim fails while its own
world-size-scaled DDP clause holds. -/
theorem backward_grad_not_plain_reference_chunk :
    (paramAt cexModelC1 0 0).gradOf ≠
      some (shardedChunk ((linMod.bwd [[(1 : ℚ), 2, 3]] [1, 1, 1]).getD 0 [])
        2 0) ∧
    (paramAt cexModelC1 0 0).gradOf =
      some (shardedChunk
        (tscale (2 : ℚ) ((linMod.bwd [[(1 : ℚ), 2, 3]] [1, 1, 1]).getD 0 []))
        2 0) := by
  constructor
  · with_unfolding_all decide
  · with_unfolding_all rfl

/-- Claim C1 (amended): after backward with the default configuration, when
every rank computes the same local gradients `gs` (identical per-rank
input), each rank's sharded gradient equals `sharded_chunk` of the
world-size multiple of the reference gradient — equivalently,
`sharded_chunk(ddp_gradient * world_size)` against the DDP replica, which
averages — because the FSDP reduction policy is SUM. -/
theorem backward_grad_matches_worldsize_scaled_reference
    (mod : NNModule) (fulls xs gs : List Tensor) (W r i : ℕ)
    (hW : 0 < W) (hr : r < W) (hi : i < fulls.length)
    (hconst : ∀ r', r' < W → mod.bwd fulls (xs.getD r' []) = gs) :
    (paramAt (rebuild (wrap fulls W defaultConfig)
        (bwdXform mod (wrap fulls W defaultConfig) xs)) r i).gradOf =
      some (shardedChunk (tscale (W : ℚ) (gs.getD i [])) W r) ∧
    (paramAt (rebuild (wrap fulls W defaultConfig)
        (bwdXform mod (wrap fulls W defaultConfig) xs)) r i).gradOf =
      some (shardedChunk
        (tscale (W : ℚ) (ddpGrad mod (wrap fulls W defaultConfig) xs i))
        W r) := by
  rw [paramAt_bwd_wrap mod fulls W defaultConfig xs r i hW hr hi]
  have hcfg : defaultConfig.noReduceGrads = false := rfl
  simp only [Param.gradOf, hcfg, Bool.false_eq_true, if_false]
  constructor
  · rw [redGrad_wrap_const mod fulls W defaultConfig xs gs i hW hconst]
  · rw [← tscale_world_ddpGrad mod (wrap fulls W defaultConfig) xs i hW]
    rfl

/-- Witness for the amended claim C1 at the concrete two-worker run. -/
theorem backward_grad_matches_worldsize_scaled_reference_witness :
    (paramAt (rebuild (wrap [[(1 : ℚ), 2, 3]] 2 defaultConfig)
        (bwdXform linMod (wrap [[(1 : ℚ), 2, 3]] 2 defaultConfig)
          [[1, 1, 1], [1, 1, 1]])) 0 0).gradOf =
      some (shardedChunk (tscale (2 : ℚ) (([[(1 : ℚ), 1, 1]]).getD 0 []))
        2 0) :=
  (backward_grad_matches_worldsize_scaled_reference linMod
    [[(1 : ℚ), 2, 3]] [[1, 1, 1], [1, 1, 1]] [[(1 : ℚ), 1, 1]] 2 0 0
    (by decide) (by decide) (by decide)
    (by with_unfolding_all decide)).1

/-- Claim C2: a forward pass on the consistently-loaded FSDP wrapper
succeeds and gives every rank exactly the loss the unsharded reference
module computes on that rank's input from the same full parameters — and
hence also the loss of a DDP replica, whose forward is the plain module
forward. -/
theorem forward_loss_matches_reference (mod : NNModule)
    (fulls : List Tensor) (W : ℕ) (cfg : FSDPConfig) (xs : List Tensor)
    (hW : 0 < W) :
    forwardStep mod (wrap fulls W cfg) xs =
      Except.ok (wrap fulls W cfg,
        (List.range W).map (fun r => mod.fwd fulls (xs.getD r [])),
        [CollOp.allGather]) ∧
    ∀ r, r < W →
      ((List.range W).map (fun r => mod.fwd fulls (xs.getD r []))).getD r 0 =
        ddpLoss mod fulls (xs.getD r []) := by
  constructor
  · exact forwardStep_wrap mod fulls W cfg xs hW
  · intro r hr
    rw [getD_map_range W r _ 0 hr]
    rfl

/-- Witness for claim C2 at the concrete two-worker run. -/
theorem forward_loss_matches_reference_witness :
    forwardStep linMod (wrap [[(1 : ℚ), 2, 3]] 2 defaultConfig)
        [[1, 1, 1], [1, 1, 1]] =
      Except.ok (wrap [[(1 : ℚ), 2, 3]] 2 defaultConfig,
        (List.range 2).map
          (fun r => linMod.fwd [[(1 : ℚ), 2, 3]]
            (([[(1 : ℚ), 1, 1], [1, 1, 1]]).getD r [])),
        [CollOp.allGather]) :=
  (forward_loss_matches_reference linMod [[(1 : ℚ), 2, 3]] 2 defaultConfig
    [[1, 1, 1], [1, 1, 1]] (by decide)).1

/-- Claim C3: sharding any full tensor into per-rank padded chunks and
gathering them back reconstructs the original tensor exactly, whether or
not the world size divides the element count (the trailing zero padding is
excluded by the gather). -/
theorem shard_unshard_roundtrip (P : Tensor) (W : ℕ) (hW : 0 < W) :
    unshardAll (allChunks P W) P.length = P :=
  unshardAll_allChunks P W hW

/-- Witness for claim C3: an unevenly divided tensor (3 elements over 2
workers) and an evenly divided one (4 over 2). -/
theorem shard_unshard_roundtrip_witness :
    unshardAll (allChunks [(1 : ℚ), 2, 3] 2) ([(1 : ℚ), 2, 3]).length =
        [(1 : ℚ), 2, 3] ∧
    unshardAll (allChunks [(1 : ℚ), 2, 3, 4] 2) ([(1 : ℚ), 2, 3, 4]).length =
        [(1 : ℚ), 2, 3, 4] :=
  ⟨shard_unshard_roundtrip [(1 : ℚ), 2, 3] 2 (by decide),
   shard_unshard_roundtrip [(1 : ℚ), 2, 3, 4] 2 (by decide)⟩

/-- The operational chunk always has the padded per-worker length. -/
lemma shardedChunk_length (full : Tensor) (W r : ℕ) :
    (shardedChunk full W r).length = shardLen full.length W :=
  chunkPadded_length _ _ _

/-- The all-reduced gradient of parameter `i` has the parameter's full
length whenever every rank's local gradient does. -/
lemma redGrad_length (mod : NNModule) (fulls xs : List Tensor) (W i : ℕ)
    (cfg : FSDPConfig) (hW : 0 < W) (n : ℕ)
    (hlen : ∀ r', r' < W →
      ((mod.bwd fulls (xs.getD r' [])).getD i []).length = n) :
    (redGrad mod (wrap fulls W cfg) xs i).length = n := by
  rw [redGrad_wrap mod fulls W cfg xs i hW]
  apply length_tsumList
  · simp
    omega
  · intro g hg
    rw [List.mem_map] at hg
    obtain ⟨r', hr', rfl⟩ := hg
    exact hlen r' (List.mem_range.mp hr')

/-- Claim C4: (i) any sequence of lifecycle operations started from the
consistently-loaded wrapper leaves every managed parameter SHARDED — in
particular no parameter enters a forward pass in FULL state and every
forward/backward returns with all parameters sharded; (ii) as long as no
backward has run, every managed parameter's gradient is `None`; (iii) a
backward pass under the default configuration leaves every managed
parameter sharded with a gradient of shard-local shape. -/
theorem post_forward_backward_state_contract (mod : NNModule)
    (fulls xs : List Tensor) (cmds : List Cmd) (W r i : ℕ)
    (cfg : FSDPConfig) (hW : 0 < W) (hr : r < W) (hi : i < fulls.length)
    (hnb : ∀ c ∈ cmds, ¬ c.isBwd)
    (hlen : ∀ r', r' < W →
      ((mod.bwd fulls (xs.getD r' [])).getD i []).length =
        (fulls.getD i []).length) :
    StateOK (runCmds mod (wrap fulls W cfg) cmds) ∧
    GradsNone (runCmds mod (wrap fulls W cfg) cmds) ∧
    (paramAt (rebuild (wrap fulls W defaultConfig)
        (bwdXform mod (wrap fulls W defaultConfig) xs)) r i).gradOf =
      some (shardedChunk (redGrad mod (wrap fulls W defaultConfig) xs i)
        W r) ∧
    (shardedChunk (redGrad mod (wrap fulls W defaultConfig) xs i) W r).length
      = shardLen (fulls.getD i []).length W ∧
    (paramAt (rebuild (wrap fulls W defaultConfig)
        (bwdXform mod (wrap fulls W defaultConfig) xs)) r i).shardedOK := by
  refine ⟨stateOK_runCmds mod _ cmds (stateOK_wrap fulls W cfg),
    gradsNone_runCmds mod _ cmds (gradsNone_wrap fulls W cfg) hnb,
    ?_, ?_, ?_⟩
  · rw [paramAt_bwd_wrap mod fulls W defaultConfig xs r i hW hr hi]
    have hcfg : defaultConfig.noReduceGrads = false := rfl
    simp only [Param.gradOf, hcfg, Bool.false_eq_true, if_false]
  · rw [shardedChunk_length]
    rw [redGrad_length mod fulls xs W i defaultConfig hW
      (fulls.getD i []).length hlen]
  · rw [paramAt_bwd_wrap mod fulls W defaultConfig xs r i hW hr hi]
    rfl

/-- Witness for claim C4 at the concrete two-worker run, with a single
forward command before the inspected backward. -/
theorem post_forward_backward_state_contract_witness :
    StateOK (runCmds linMod (wrap [[(1 : ℚ), 2, 3]] 2 defaultConfig)
      [Cmd.fwd [[1, 1, 1], [1, 1, 1]]]) ∧
    GradsNone (runCmds linMod (wrap [[(1 : ℚ), 2, 3]] 2 defaultConfig)
      [Cmd.fwd [[1, 1, 1], [1, 1, 1]]]) ∧
    (paramAt (rebuild (wrap [[(1 : ℚ), 2, 3]] 2 defaultConfig)
        (bwdXform linMod (wrap [[(1 : ℚ), 2, 3]] 2 defaultConfig)
          [[1, 1, 1], [1, 1, 1]])) 0 0).gradOf =
      some (shardedChunk
        (redGrad linMod (wrap [[(1 : ℚ), 2, 3]] 2 defaultConfig)
          [[1, 1, 1], [1, 1, 1]] 0) 2 0) ∧
    (shardedChunk (redGrad linMod (wrap [[(1 : ℚ), 2, 3]] 2 defaultConfig)
        [[1, 1, 1], [1, 1, 1]] 0) 2 0).length =
      shardLen (([[(1 : ℚ), 2, 3]]).getD 0 []).length 2 ∧
    (paramAt (rebuild (wrap [[(1 : ℚ), 2, 3]] 2 defaultConfig)
        (bwdXform linMod (wrap [[(1 : ℚ), 2, 3]] 2 defaultConfig)
          [[1, 1, 1], [1, 1, 1]])) 0 0).shardedOK :=
  post_forward_backward_state_contract linMod [[(1 : ℚ), 2, 3]]
    [[1, 1, 1], [1, 1, 1]] [Cmd.fwd [[1, 1, 1], [1, 1, 1]]] 2 0 0
    defaultConfig (by decide) (by decide) (by decide)
    (by
      intro c hc
      simp at hc
      subst hc
      simp [Cmd.isBwd])
    (by with_unfolding_all decide)

/-- Claim C5: inside the scoped full-parameter context every managed
parameter is FULL (not sharded) holding the complete logical tensor of its
original full shape; after the scope exits — whatever state the body left
and whether or not it raised (`snd = some e`) — every managed parameter is
SHARDED again, and the body's outcome (error or normal) is propagated
unchanged alongside the cleaned-up state. -/
theorem summon_full_params_contract {ε : Type} (fulls : List Tensor)
    (W : ℕ) (cfg : FSDPConfig) (body : FSDPModel → FSDPModel × Option ε)
    (r i : ℕ) (hW : 0 < W) (hr : r < W) (hi : i < fulls.length) :
    paramAt (unshardAllParams (wrap fulls W cfg)) r i =
      Param.flat (SFParam.mk (fulls.getD i []).length ShardState.FULL
        (fulls.getD i []) none) ∧
    (∀ r' i',
      (paramAt (summonRun (wrap fulls W cfg) body).1 r' i').shardedOK) ∧
    (summonRun (wrap fulls W cfg) body).2 =
      (body (unshardAllParams (wrap fulls W cfg))).2 :=
  ⟨paramAt_unshard_wrap fulls W cfg r i hW hr hi,
   fun r' i' =>
     stateOK_reshard ((body (unshardAllParams (wrap fulls W cfg))).1) r' i',
   rfl⟩

/-- Witness for claim C5 with a body that raises an error. -/
theorem summon_full_params_contract_witness :
    paramAt (unshardAllParams (wrap [[(1 : ℚ), 2, 3]] 2 defaultConfig)) 0 0 =
      Param.flat (SFParam.mk (([[(1 : ℚ), 2, 3]]).getD 0 []).length
        ShardState.FULL (([[(1 : ℚ), 2, 3]]).getD 0 []) none) ∧
    (∀ r' i',
      (paramAt (summonRun (wrap [[(1 : ℚ), 2, 3]] 2 defaultConfig)
        (fun n => (n, some Unit.unit))).1 r' i').shardedOK) ∧
    (summonRun (wrap [[(1 : ℚ), 2, 3]] 2 defaultConfig)
        (fun n => (n, some Unit.unit))).2 =
      ((fun (n : FSDPModel) => (n, some Unit.unit))
        (unshardAllParams (wrap [[(1 : ℚ), 2, 3]] 2 defaultConfig))).2 :=
  summon_full_params_contract [[(1 : ℚ), 2, 3]] 2 defaultConfig
    (fun n => (n, some Unit.unit)) 0 0 (by decide) (by decide) (by decide)

/-- Claim C6, counterexample: with the `no_reduce_grads` flag the gradient
kept on rank 0 is the full-shape local gradient, not that gradient sharded
to rank 0's chunk, contradicting the claim's "sharded to its chunk". -/
theorem no_reduce_grad_not_sharded_chunk :
    (paramAt cexModelC6 0 0).gradOf ≠
      some (shardedChunk ((linMod.bwd [[(1 : ℚ), 2, 3]] [1, 1, 1]).getD 0 [])
        2 0) ∧
    (paramAt cexModelC6 0 0).gradOf =
      some ((linMod.bwd [[(1 : ℚ), 2, 3]] [1, 1, 1]).getD 0 []) := by
  constructor
  · with_unfolding_all decide
  · with_unfolding_all rfl

/-- Claim C6 (amended): with the `no_reduce_grads` debug flag, backward
issues no all-reduce collective and each rank keeps its locally-computed
unreduced gradient in full (unsharded) shape; all-reduce-summing those
local gradients and slicing with `sharded_chunk` reproduces exactly the
gradient the normally-configured model stores. -/
theorem no_reduce_backward_contract (mod : NNModule)
    (fulls xs : List Tensor) (W r i : ℕ)
    (hW : 0 < W) (hr : r < W) (hi : i < fulls.length) :
    backwardStep mod (wrap fulls W (FSDPConfig.mk true)) xs =
      Except.ok (rebuild (wrap fulls W (FSDPConfig.mk true))
        (bwdXform mod (wrap fulls W (FSDPConfig.mk true)) xs),
        [CollOp.allGather]) ∧
    CollOp.allReduce ∉ ([CollOp.allGather] : List CollOp) ∧
    (paramAt (rebuild (wrap fulls W (FSDPConfig.mk true))
        (bwdXform mod (wrap fulls W (FSDPConfig.mk true)) xs)) r i).gradOf =
      some ((mod.bwd fulls (xs.getD r [])).getD i []) ∧
    (paramAt (rebuild (wrap fulls W defaultConfig)
        (bwdXform mod (wrap fulls W defaultConfig) xs)) r i).gradOf =
      some (shardedChunk (tsumList ((List.range W).map
        (fun r' => (mod.bwd fulls (xs.getD r' [])).getD i []))) W r) := by
  refine ⟨?_, by simp, ?_, ?_⟩
  · exact backwardStep_wrap mod fulls W (FSDPConfig.mk true) xs
  · rw [paramAt_bwd_wrap mod fulls W (FSDPConfig.mk true) xs r i hW hr hi]
    simp only [Param.gradOf]
    simp
  · rw [paramAt_bwd_wrap mod fulls W defaultConfig xs r i hW hr hi]
    have hcfg : defaultConfig.noReduceGrads = false := rfl
    simp only [Param.gradOf, hcfg, Bool.false_eq_true, if_false]
    rw [redGrad_wrap mod fulls W defaultConfig xs i hW]

/-- Witness for the amended claim C6 at the concrete two-worker run. -/
theorem no_reduce_backward_contract_witness :
    CollOp.allReduce ∉ ([CollOp.allGather] : List CollOp) ∧
    (paramAt (rebuild (wrap [[(1 : ℚ), 2, 3]] 2 (FSDPConfig.mk true))
        (bwdXform linMod (wrap [[(1 : ℚ), 2, 3]] 2 (FSDPConfig.mk true))
          [[1, 1, 1], [1, 1, 1]])) 0 0).gradOf =
      some ((linMod.bwd [[(1 : ℚ), 2, 3]]
        (([[(1 : ℚ), 1, 1], [1, 1, 1]]).getD 0 [])).getD 0 []) :=
  ⟨(no_reduce_backward_contract linMod [[(1 : ℚ), 2, 3]]
      [[1, 1, 1], [1, 1, 1]] 2 0 0 (by decide) (by decide) (by decide)).2.1,
   (no_reduce_backward_contract linMod [[(1 : ℚ), 2, 3]]
      [[1, 1, 1], [1, 1, 1]] 2 0 0 (by decide) (by decide) (by decide)).2.2.1⟩

/-- Claim C7: `sharded_chunk` is the pure slice-by-boundary function used by
`shard` itself — the data a wrapped parameter holds is exactly
`sharded_chunk` of its full tensor, and after loading a full state dict
inside the scoped full-parameter context and exiting, each rank's sharded
data equals `sharded_chunk` of the corresponding loaded full tensor. -/
theorem sharded_chunk_pure_and_load_roundtrip (inits fulls : List Tensor)
    (W : ℕ) (cfg : FSDPConfig) (r i : ℕ) (hW : 0 < W) (hr : r < W)
    (hi : i < inits.length) (hif : i < fulls.length) :
    paramAt ((summonRun (wrap inits W cfg)
        (fun n => (loadFull fulls n, (none : Option Unit)))).1) r i =
      Param.flat (SFParam.mk (inits.getD i []).length ShardState.SHARDED
        (shardedChunk (fulls.getD i []) W r) none) ∧
    shardedChunk (fulls.getD i []) W r =
      (paramAt (wrap fulls W cfg) r i).dataOf ∧
    shardedChunk (fulls.getD i []) W r =
      sliceBySpec (fulls.getD i [])
        (chunkSpec (fulls.getD i []).length W r) :=
  ⟨paramAt_summon_load_wrap inits fulls W cfg r i hW hr hi hif,
   by
     rw [paramAt_wrap fulls W cfg r i hr hif]
     rfl,
   shardedChunk_eq_sliceBySpec (fulls.getD i []) W r⟩

/-- Witness for claim C7 (load `[4,5,6]` over an initial `[1,2,3]`, two
workers). -/
theorem sharded_chunk_pure_and_load_roundtrip_witness :
    paramAt ((summonRun (wrap [[(1 : ℚ), 2, 3]] 2 defaultConfig)
        (fun n => (loadFull [[(4 : ℚ), 5, 6]] n, (none : Option Unit)))).1)
        0 0 =
      Param.flat (SFParam.mk (([[(1 : ℚ), 2, 3]]).getD 0 []).length
        ShardState.SHARDED
        (shardedChunk (([[(4 : ℚ), 5, 6]]).getD 0 []) 2 0) none) :=
  (sharded_chunk_pure_and_load_roundtrip [[(1 : ℚ), 2, 3]]
    [[(4 : ℚ), 5, 6]] 2 defaultConfig 0 0 (by decide) (by decide)
    (by decide) (by decide)).1

/-- Claim C8: chunk boundaries are the pure function `chunkSpec` of
`(total_elements, world_size, rank)` alone — the operational shard of any
full tensor of that length is exactly the slice plus padding that
`chunkSpec` dictates, every rank's chunk starts at `rank * shardLen` and
its data plus padding always fill the common padded shard length, so any
two workers (or runs) agree on the partitioning with no communication. -/
theorem chunk_boundaries_pure_function (total W r : ℕ) (full : Tensor)
    (hlen : full.length = total) :
    shardedChunk full W r = sliceBySpec full (chunkSpec total W r) ∧
    (chunkSpec total W r).start = r * shardLen total W ∧
    (chunkSpec total W r).len + (chunkSpec total W r).pad =
      shardLen total W := by
  subst hlen
  refine ⟨shardedChunk_eq_sliceBySpec full W r, rfl, ?_⟩
  dsimp only [chunkSpec]
  omega

/-- Witness for claim C8 at an unevenly divided size (5 elements, 2
workers, rank 1). -/
theorem chunk_boundaries_pure_function_witness :
    shardedChunk [(1 : ℚ), 2, 3, 4, 5] 2 1 =
      sliceBySpec [(1 : ℚ), 2, 3, 4, 5] (chunkSpec 5 2 1) ∧
    (chunkSpec 5 2 1).start = 1 * shardLen 5 2 ∧
    (chunkSpec 5 2 1).len + (chunkSpec 5 2 1).pad = shardLen 5 2 :=
  chunk_boundaries_pure_function 5 2 1 [(1 : ℚ), 2, 3, 4, 5] (by decide)

/-- Claim C9: issuing the gather collective on a parameter that is already
FULL signals the invalid-state error, and the parameter is left exactly as
it was when the call was entered — no partial side effects. -/
theorem gather_invalid_state_error_noop (p : SFParam) (full : Tensor)
    (h : p.state = ShardState.FULL) :
    gatherParam p full = Except.error FSDPError.invalidState ∧
    runGather p full = p := by
  constructor
  · unfold gatherParam
    rw [h]
  · unfold runGather gatherParam
    rw [h]

/-- Witness for claim C9 on a concrete FULL parameter. -/
theorem gather_invalid_state_error_noop_witness :
    gatherParam (SFParam.mk 3 ShardState.FULL [(1 : ℚ), 2, 3] none)
        [(9 : ℚ), 9, 9] =
      Except.error FSDPError.invalidState ∧
    runGather (SFParam.mk 3 ShardState.FULL [(1 : ℚ), 2, 3] none)
        [(9 : ℚ), 9, 9] =
      SFParam.mk 3 ShardState.FULL [(1 : ℚ), 2, 3] none :=
  gather_invalid_state_error_noop
    (SFParam.mk 3 ShardState.FULL [(1 : ℚ), 2, 3] none) [(9 : ℚ), 9, 9] rfl

/-- Claim C10: wrapping replaces every ordinary parameter by a managed
sharded parameter, and through any sequence of lifecycle operations —
construction, forward, backward, scoped load — every in-range parameter
slot of every rank remains a managed (`ShardedFlatParameter`-style)
parameter. -/
theorem wrapped_params_all_managed (mod : NNModule) (fulls : List Tensor)
    (W : ℕ) (cfg : FSDPConfig) (cmds : List Cmd) :
    AllFlat (runCmds mod (wrap fulls W cfg) cmds) :=
  allFlat_runCmds mod (wrap fulls W cfg) cmds (WF_wrap fulls W cfg)
    (allFlat_wrap fulls W cfg)
